import Mathlib

/-
Shallow embedding of src/test_app/c/main.c (urcu-ht benchmark harness).

The program is a microbenchmark: reader threads repeatedly look up key 0 in
an RCU lock-free hash table while the main thread inserts and removes a
batch of keys each cycle, printing per-second throughput and a final
average.

Modelling conventions:
  * machine integers: uint64_t counters are Nat values taken modulo
    U64 = 2^64 at every operation (add64, sub64); C int configuration
    values are Int.
  * the hash table (external liburcu collaborator) is an association list
    List (Int, Int); cds_lfht_lookup is a linear search by key via the
    match_cb comparison, cds_lfht_add_replace conses the new node and
    erases the single matching old node, cds_lfht_del erases the single
    node returned by the preceding lookup.
  * side effects (printf, pthread_create, pthread_setaffinity_np, usleep,
    cds_lfht calls, call_rcu) are recorded as an explicit Event trace.
    The Event type also has constructors signalCancel, joinThread and
    freeSync that no embedded function ever emits: they let theorems state
    that the code never signals a cancellation flag, never joins the
    reader threads and never frees a removed node synchronously.
  * nondeterministic inputs (wall clock readings, malloc success, the
    pthread_setaffinity_np result, the concurrently written per-thread
    counters as observed by the main thread) are oracles in MainEnv.
  * unbounded loops (the wait for a fresh second, the main measurement
    loop) take fuel and return Option; the reader loop of read_rcu, which
    has no exit condition at all in the source, is modelled by a step
    function iterated n times plus a phase automaton.
-/

namespace UrcuHt

/-- Modulus of uint64_t arithmetic, 2 to the power 64. -/
def U64 : Nat := 18446744073709551616

/-- uint64_t addition. -/
def add64 (x y : Nat) : Nat := (x + y) % U64

/-- uint64_t subtraction (wraps around on underflow). -/
def sub64 (x y : Nat) : Nat := (x % U64 + U64 - y % U64) % U64

/-- The cds_lfht hash table, abstracted to an association list of
(key, value) nodes; main.c stores mynode records with int key and value. -/
abbrev HashTable := List (Int × Int)

/-- cds_lfht_lookup with match_cb: first node whose key equals k. -/
def ht_lookup : HashTable → Int → Option Int
  | [], _ => none
  | p :: rest, k => if p.1 = k then some p.2 else ht_lookup rest k

/-- Observable actions of the program, in source order.  signalCancel,
joinThread and freeSync are never emitted by any embedded function; they
exist so theorems can state their absence from every trace. -/
inductive Event where
  | printMsg (s : String)
  | printStats (triples : List (Nat × Nat × Nat))
  | printTotal (total misses hits : Nat)
  | insert (k v : Int)
  | unlink (k : Int)
  | deferFree (k : Int)
  | freeSync (k : Int)
  | sleep (usec : Nat)
  | startThread (idx : Nat) (core : Int)
  | setAffinity (core : Int)
  | readLock
  | readUnlock
  | lookupEv (k : Int)
  | signalCancel
  | joinThread (idx : Nat)
  deriving DecidableEq, Repr

/-- cds_lfht_add_replace: publish the new node, unlinking the single
matching old node if present (main.c lines 103-121, add_node body after a
successful malloc). -/
def addReplace (ht : HashTable) (k v : Int) : HashTable :=
  (k, v) :: ht.eraseP (fun p => p.1 == k)

/-- del_node (main.c lines 123-138): lookup the key inside a read-side
critical section; if a node is found, unlink it with cds_lfht_del and
schedule its free with urcu_memb_call_rcu, otherwise do nothing. -/
def delNode (ht : HashTable) (k : Int) : HashTable × List Event :=
  match ht_lookup ht k with
  | some _ =>
      (ht.eraseP (fun p => p.1 == k),
       [Event.readLock, Event.lookupEv k, Event.unlink k, Event.deferFree k,
        Event.readUnlock])
  | none => (ht, [Event.readLock, Event.lookupEv k, Event.readUnlock])

/-- set_affinity (main.c lines 41-49): pin the calling thread to the one
core and return the pthread_setaffinity_np result.  It prints nothing. -/
def set_affinity (core : Int) (pthreadRes : Int) : Int × List Event :=
  (pthreadRes, [Event.setAffinity core])

/-- struct thread_data (main.c lines 28-39), without the cache-line
padding words; counters are uint64_t. -/
structure ThreadData where
  key_not_found : Nat
  key_found : Nat
  core_id : Int
  deriving DecidableEq, Repr

/-- One iteration of the read_rcu loop body (main.c lines 79-96): enter
the read-side critical section, look up key 0, bump exactly one of the
two own counters, leave the critical section. -/
def readerIter (ht : HashTable) (td : ThreadData) : ThreadData × List Event :=
  match ht_lookup ht 0 with
  | some _ =>
      ({ td with key_found := (td.key_found + 1) % U64 },
       [Event.readLock, Event.lookupEv 0, Event.readUnlock])
  | none =>
      ({ td with key_not_found := (td.key_not_found + 1) % U64 },
       [Event.readLock, Event.lookupEv 0, Event.readUnlock])

/-- n iterations of the read_rcu loop; hts t is the hash table contents
this reader observes at iteration t (it is mutated concurrently by the
main thread). -/
def readerLoop (hts : Nat → HashTable) : Nat → Nat → ThreadData → ThreadData × List Event
  | _, 0, td => (td, [])
  | t, n + 1, td =>
      let r1 := readerIter (hts t) td
      let r2 := readerLoop hts (t + 1) n r1.1
      (r2.1, r1.2 ++ r2.2)

/-- read_rcu (main.c lines 70-101) run for n loop iterations: pin to the
core given in thread_data (the pthread_setaffinity_np result is
discarded, line 75), then loop.  The loop itself has no exit. -/
def read_rcu_run (core : Int) (affRes : Int) (hts : Nat → HashTable) (n : Nat)
    (td : ThreadData) : ThreadData × List Event :=
  ((readerLoop hts 0 n td).1,
    (set_affinity core affRes).2 ++ (readerLoop hts 0 n td).2)

/-- One reader iteration applied to worker i of the thread_data array;
every other entry of the array is untouched. -/
def readerIterAt (ht : HashTable) : List ThreadData → Nat → List ThreadData
  | [], _ => []
  | td :: tds, 0 => (readerIter ht td).1 :: tds
  | td :: tds, i + 1 => td :: readerIterAt ht tds i

/-- Reader Worker lifecycle of the spec mapped onto read_rcu: affinity is
set (Bound), then the while(1) loop runs (Running).  The source loop has
no break and checks no flag, so Running always steps to Running and
Stopped is unreachable. -/
inductive ReaderPhase where
  | created
  | bound
  | running
  | stopped
  deriving DecidableEq, Repr

/-- Control-flow step of read_rcu: Created to Bound at set_affinity,
Bound to Running at loop entry, and Running to Running forever because
while(1) has no exit condition. -/
def readerPhaseStep : ReaderPhase → ReaderPhase
  | ReaderPhase.created => ReaderPhase.bound
  | ReaderPhase.bound => ReaderPhase.running
  | ReaderPhase.running => ReaderPhase.running
  | ReaderPhase.stopped => ReaderPhase.stopped

/-- Reader phase after n control-flow steps from thread start. -/
def readerPhaseAfter : Nat → ReaderPhase
  | 0 => ReaderPhase.created
  | n + 1 => readerPhaseStep (readerPhaseAfter n)

/-- The insert half of a mutator cycle (main.c lines 242-244): one
add_node call per key; each call does one malloc (the m-th), and on
malloc failure add_node returns NULL, which main ignores, so the key is
silently skipped. -/
def insertKeys (alloc : Nat → Bool) : HashTable → Nat → List Int → HashTable × Nat × List Event
  | ht, m, [] => (ht, m, [])
  | ht, m, k :: ks =>
      if alloc m then
        let r := insertKeys alloc (addReplace ht k 0) (m + 1) ks
        (r.1, r.2.1, [Event.readLock, Event.insert k 0, Event.readUnlock] ++ r.2.2)
      else
        insertKeys alloc ht (m + 1) ks

/-- The remove half of a mutator cycle (main.c lines 271-273): one
del_node call per key. -/
def deleteKeys : HashTable → List Int → HashTable × List Event
  | ht, [] => (ht, [])
  | ht, k :: ks =>
      let r1 := delNode ht k
      let r2 := deleteKeys r1.1 ks
      (r2.1, r1.2 ++ r2.2)

/-- Keys 0 .. n-1 used by each mutator cycle (the loop variable i is a C
int starting at 0). -/
def keyRange (n : Nat) : List Int := (List.range n).map Int.ofNat

/-- One per-worker line of the per-second report (main.c lines 255-258),
in uint64_t arithmetic: now = (key_found, key_not_found) read from the
worker, prev = the old_thread_data snapshot.  Printed in the order
total, misses, hits. -/
def statsTriple (now prev : Nat × Nat) : Nat × Nat × Nat :=
  (sub64 (sub64 (add64 now.1 now.2) prev.1) prev.2,
   sub64 now.2 prev.2,
   sub64 now.1 prev.1)

/-- The whole per-second report line: one triple per worker (main.c
lines 254-262). -/
def statsAll : List (Nat × Nat) → List (Nat × Nat) → List (Nat × Nat × Nat)
  | n :: ns, p :: ps => statsTriple n p :: statsAll ns ps
  | _, _ => []

/-- Environment oracles for one run: success of cds_lfht_new and
pthread_attr_init, the successive tv_sec readings of gettimeofday, the
per-malloc success flags, the pthread_setaffinity_np result of the main
thread, and the (key_found, key_not_found) values observed in worker i of
thread_data at the s-th time the main thread reads them (the readers
update these fields concurrently). -/
structure MainEnv where
  htNewOk : Bool
  attrInitOk : Bool
  clock : Nat → Nat
  mallocOk : Nat → Bool
  affinityRes : Int
  readCounters : Nat → Nat → Nat × Nat

/-- Mutable state of the main measurement loop (main.c lines 241-274):
the hash table, old_thread_data, tv_lastsec, remaining_time, and the
indices of the next gettimeofday call, the next counter read and the
next malloc. -/
structure LoopState where
  ht : HashTable
  old : List (Nat × Nat)
  tvLastsec : Nat
  remaining : Int
  clockIdx : Nat
  sampleIdx : Nat
  mallocIdx : Nat

/-- thread_data counters of all coreNb workers as read by the main thread
at sample s. -/
def sampleCounters (env : MainEnv) (s coreNb : Nat) : List (Nat × Nat) :=
  (List.range coreNb).map (fun i => env.readCounters s i)

/-- One iteration of the main loop (main.c lines 241-274): insert the
batch, usleep(1000), gettimeofday; if the second advanced, print the
per-worker deltas, store the sampled counters into old_thread_data,
decrement remaining_time and break when it reaches zero; otherwise (and
when not breaking) remove the batch.  Returns (new state, events emitted,
loop finished). -/
def loopBody (env : MainEnv) (o coreNb : Nat) (st : LoopState) :
    LoopState × List Event × Bool :=
  if env.clock st.clockIdx ≠ st.tvLastsec then
    if st.remaining - 1 = 0 then
      ({ ht := (insertKeys env.mallocOk st.ht st.mallocIdx (keyRange o)).1,
         old := sampleCounters env st.sampleIdx coreNb,
         tvLastsec := env.clock st.clockIdx,
         remaining := st.remaining - 1,
         clockIdx := st.clockIdx + 1,
         sampleIdx := st.sampleIdx + 1,
         mallocIdx := (insertKeys env.mallocOk st.ht st.mallocIdx (keyRange o)).2.1 },
       (insertKeys env.mallocOk st.ht st.mallocIdx (keyRange o)).2.2 ++
         [Event.sleep 1000,
          Event.printStats (statsAll (sampleCounters env st.sampleIdx coreNb) st.old)],
       true)
    else
      ({ ht := (deleteKeys (insertKeys env.mallocOk st.ht st.mallocIdx (keyRange o)).1
                  (keyRange o)).1,
         old := sampleCounters env st.sampleIdx coreNb,
         tvLastsec := env.clock st.clockIdx,
         remaining := st.remaining - 1,
         clockIdx := st.clockIdx + 1,
         sampleIdx := st.sampleIdx + 1,
         mallocIdx := (insertKeys env.mallocOk st.ht st.mallocIdx (keyRange o)).2.1 },
       (insertKeys env.mallocOk st.ht st.mallocIdx (keyRange o)).2.2 ++
         [Event.sleep 1000,
          Event.printStats (statsAll (sampleCounters env st.sampleIdx coreNb) st.old)] ++
         (deleteKeys (insertKeys env.mallocOk st.ht st.mallocIdx (keyRange o)).1
            (keyRange o)).2,
       false)
  else
    ({ ht := (deleteKeys (insertKeys env.mallocOk st.ht st.mallocIdx (keyRange o)).1
                (keyRange o)).1,
       old := st.old,
       tvLastsec := st.tvLastsec,
       remaining := st.remaining,
       clockIdx := st.clockIdx + 1,
       sampleIdx := st.sampleIdx,
       mallocIdx := (insertKeys env.mallocOk st.ht st.mallocIdx (keyRange o)).2.1 },
     (insertKeys env.mallocOk st.ht st.mallocIdx (keyRange o)).2.2 ++
       [Event.sleep 1000] ++
       (deleteKeys (insertKeys env.mallocOk st.ht st.mallocIdx (keyRange o)).1
          (keyRange o)).2,
     false)

/-- The main loop iterated until it breaks, with fuel; none means the
fuel ran out before remaining_time reached zero. -/
def mainLoop (env : MainEnv) (o coreNb : Nat) : Nat → LoopState → Option (LoopState × List Event)
  | 0, _ => none
  | fuel + 1, st =>
      let r := loopBody env o coreNb st
      if r.2.2 then some (r.1, r.2.1)
      else
        match mainLoop env o coreNb fuel r.1 with
        | none => none
        | some q => some (q.1, r.2.1 ++ q.2)

/-- The wait for a fresh second (main.c lines 219-226): usleep(1) and
re-read gettimeofday until tv_sec differs from the base reading; returns
the index of the first differing clock reading. -/
def waitAux (clock : Nat → Nat) (base : Nat) : Nat → Nat → Option (Nat × List Event)
  | 0, _ => none
  | fuel + 1, idx =>
      if clock idx = base then
        match waitAux clock base fuel (idx + 1) with
        | none => none
        | some r => some (r.1, Event.sleep 1 :: r.2)
      else some (idx, [Event.sleep 1])

/-- uint64_t accumulation of the final totals (main.c lines 282-285). -/
def sum64 (l : List Nat) : Nat := l.foldl add64 0

/-- The three numbers of the final summary line (main.c lines 287-292):
total, misses and hits, each divided by the run duration in uint64_t
arithmetic. -/
def finalTriple (keyFound keyNotFound s : Nat) : Nat × Nat × Nat :=
  (add64 keyFound keyNotFound / s, keyNotFound / s, keyFound / s)

/-- main (main.c lines 143-295) after option parsing: validation, hash
table and attribute creation, the wait for a fresh second, thread starts,
master affinity, the measurement loop, and the final summary.  The parsed
configuration is coreList (one entry per --core option, in order),
seconds and objects.  Returns (exit status, event trace, final hash
table), or none when the fuel runs out. -/
def cMain (coreList : List Int) (seconds objects : Int) (env : MainEnv) (fuel : Nat) :
    Option (Int × List Event × HashTable) :=
  if coreList.length < 2 then
    some (1, [Event.printMsg "There must be at least 2 cores"], [])
  else if seconds < 5 then
    some (1, [Event.printMsg "test should run for at least 5 seconds"], [])
  else if objects < 1 then
    some (1, [Event.printMsg "we must add at least 1 object in database"], [])
  else if env.htNewOk = false then
    some (1, [Event.printMsg "Error allocating hash table"], [])
  else if env.attrInitOk = false then
    some (1, [Event.printMsg "pthread_attr_init"], [])
  else
    match waitAux env.clock (env.clock 0) fuel 1 with
    | none => none
    | some w =>
      match mainLoop env objects.toNat (coreList.length - 1) fuel
          { ht := [], old := List.replicate (coreList.length - 1) (0, 0),
            tvLastsec := env.clock w.1, remaining := seconds,
            clockIdx := w.1 + 1, sampleIdx := 0, mallocIdx := 0 } with
      | none => none
      | some lp =>
        some (0,
          w.2 ++
            (((List.range (coreList.length - 1)).map
                (fun i => Event.startThread i (coreList.getD i 0))) ++
              (Event.setAffinity (coreList.getLastD 0) ::
                (lp.2 ++
                  [Event.printTotal
                    (finalTriple
                      (sum64 ((sampleCounters env lp.1.sampleIdx (coreList.length - 1)).map
                        Prod.fst))
                      (sum64 ((sampleCounters env lp.1.sampleIdx (coreList.length - 1)).map
                        Prod.snd))
                      seconds.toNat).1
                    (finalTriple
                      (sum64 ((sampleCounters env lp.1.sampleIdx (coreList.length - 1)).map
                        Prod.fst))
                      (sum64 ((sampleCounters env lp.1.sampleIdx (coreList.length - 1)).map
                        Prod.snd))
                      seconds.toNat).2.1
                    (finalTriple
                      (sum64 ((sampleCounters env lp.1.sampleIdx (coreList.length - 1)).map
                        Prod.fst))
                      (sum64 ((sampleCounters env lp.1.sampleIdx (coreList.length - 1)).map
                        Prod.snd))
                      seconds.toNat).2.2]))),
          lp.1.ht)

/-- True exactly on printStats events. -/
def isStats : Event → Bool
  | Event.printStats _ => true
  | _ => false

/-- True exactly on printTotal events. -/
def isTotalEv : Event → Bool
  | Event.printTotal _ _ _ => true
  | _ => false

/-- True exactly on printMsg events. -/
def isMsg : Event → Bool
  | Event.printMsg _ => true
  | _ => false

/-- True exactly on insert events. -/
def isInsertEv : Event → Bool
  | Event.insert _ _ => true
  | _ => false

/-- True exactly on unlink events. -/
def isUnlinkEv : Event → Bool
  | Event.unlink _ => true
  | _ => false

/-- True exactly on lookup events. -/
def isLookupEv : Event → Bool
  | Event.lookupEv _ => true
  | _ => false

/-- True exactly on startThread events. -/
def isStart : Event → Bool
  | Event.startThread _ _ => true
  | _ => false

/-- True exactly on setAffinity events. -/
def isAffinity : Event → Bool
  | Event.setAffinity _ => true
  | _ => false

/-- True exactly on the cancellation-signal event (never emitted). -/
def isCancel : Event → Bool
  | Event.signalCancel => true
  | _ => false

/-- True exactly on thread-join events (never emitted). -/
def isJoin : Event → Bool
  | Event.joinThread _ => true
  | _ => false

/-- Events a main-loop iteration can emit: container operations inside
read-side critical sections, the usleep, and the per-second report. -/
def loopEv : Event → Bool
  | Event.readLock => true
  | Event.readUnlock => true
  | Event.insert _ _ => true
  | Event.unlink _ => true
  | Event.deferFree _ => true
  | Event.lookupEv _ => true
  | Event.sleep _ => true
  | Event.printStats _ => true
  | _ => false

/-- Expected trace of one insert batch with every malloc succeeding. -/
def insEvs (ks : List Int) : List Event :=
  ks.flatMap (fun k => [Event.readLock, Event.insert k 0, Event.readUnlock])

/-- Expected trace of one remove batch when every key is present. -/
def delEvs (ks : List Int) : List Event :=
  ks.flatMap (fun k =>
    [Event.readLock, Event.lookupEv k, Event.unlink k, Event.deferFree k, Event.readUnlock])

/-- The container invariant the harness relies on: at most one live node
per key (cds_lfht_add_replace replaces any node with an equal key). -/
def uniqKeys (ht : HashTable) : Prop := (ht.map Prod.fst).Nodup

/-- Last printTotal payload of a trace, if any. -/
def lastTotal (tr : List Event) : Option (Nat × Nat × Nat) :=
  tr.foldl
    (fun acc e => match e with
      | Event.printTotal a b c => some (a, b, c)
      | _ => acc)
    none

/-- A run environment where everything succeeds, the clock advances at
every reading, and every counter read observes (2, 1). -/
def envA : MainEnv :=
  { htNewOk := true, attrInitOk := true, clock := fun n => n,
    mallocOk := fun _ => true, affinityRes := 0,
    readCounters := fun _ _ => (2, 1) }

/-- Like envA but every counter read observes key_found = 3 and
key_not_found = 3. -/
def envB : MainEnv :=
  { envA with readCounters := fun _ _ => (3, 3) }

/-- Like envA but every malloc fails. -/
def envC : MainEnv :=
  { envA with mallocOk := fun _ => false }

/-- Like envA but cds_lfht_new fails. -/
def envHtFail : MainEnv :=
  { envA with htNewOk := false }

/-- Like envA but pthread_attr_init fails. -/
def envAttrFail : MainEnv :=
  { envA with attrInitOk := false }

/- ------------------------------------------------------------------ -/
/- Helper lemmas: uint64 arithmetic                                    -/
/- ------------------------------------------------------------------ -/

theorem add64_eq (x y : Nat) (h : x + y < U64) : add64 x y = x + y := by
  simp only [add64, U64] at *
  omega

theorem sub64_eq (x y : Nat) (hle : y ≤ x) (hx : x < U64) : sub64 x y = x - y := by
  simp only [sub64, U64] at *
  omega

theorem statsTriple_eq (now prev : Nat × Nat) (h1 : prev.1 ≤ now.1) (h2 : prev.2 ≤ now.2)
    (h3 : now.1 + now.2 < U64) :
    statsTriple now prev =
      (now.1 - prev.1 + (now.2 - prev.2), now.2 - prev.2, now.1 - prev.1) := by
  simp only [statsTriple, sub64, add64, U64] at *
  refine Prod.ext ?_ (Prod.ext ?_ ?_) <;> simp <;> omega

theorem statsAll_eq (ns ps : List (Nat × Nat))
    (h : List.Forall₂ (fun n p => p.1 ≤ n.1 ∧ p.2 ≤ n.2 ∧ n.1 + n.2 < U64) ns ps) :
    statsAll ns ps =
      List.zipWith (fun n p => (n.1 - p.1 + (n.2 - p.2), n.2 - p.2, n.1 - p.1)) ns ps := by
  induction h with
  | nil => rfl
  | cons hd _ ih =>
      simp only [statsAll, List.zipWith, ih, statsTriple_eq _ _ hd.1 hd.2.1 hd.2.2]

theorem sum64_go (l : List Nat) : ∀ a, a + l.sum < U64 → l.foldl add64 a = a + l.sum := by
  induction l with
  | nil => intro a _; simp [List.foldl]
  | cons x xs ih =>
      intro a h
      simp only [List.sum_cons] at h
      simp only [List.foldl]
      rw [add64_eq a x (by omega), ih (a + x) (by omega)]
      simp [List.sum_cons]
      omega

theorem sum64_eq (l : List Nat) (h : l.sum < U64) : sum64 l = l.sum := by
  simpa using sum64_go l 0 (by omega)

/- ------------------------------------------------------------------ -/
/- Helper lemmas: generic list facts over event traces                 -/
/- ------------------------------------------------------------------ -/

theorem filter_nil_of (p : Event → Bool) :
    ∀ l : List Event, (∀ e ∈ l, p e = false) → l.filter p = [] := by
  intro l
  induction l with
  | nil => intro _; rfl
  | cons e rest ih =>
      intro h
      rw [List.filter_cons]
      have he := h e (by simp)
      simp only [he, Bool.false_eq_true, if_false]
      exact ih (fun x hx => h x (by simp [hx]))

theorem countP_zero_of (p : Event → Bool) (l : List Event)
    (h : ∀ e ∈ l, p e = false) : l.countP p = 0 := by
  rw [List.countP_eq_length_filter, filter_nil_of p l h]
  rfl

theorem filter_self_of (p : Event → Bool) :
    ∀ l : List Event, (∀ e ∈ l, p e = true) → l.filter p = l := by
  intro l
  induction l with
  | nil => intro _; rfl
  | cons e rest ih =>
      intro h
      rw [List.filter_cons]
      have he := h e (by simp)
      simp only [he, if_true]
      rw [ih (fun x hx => h x (by simp [hx]))]

/- ------------------------------------------------------------------ -/
/- Helper lemmas: what events the phases can emit                      -/
/- ------------------------------------------------------------------ -/

theorem insertKeys_mem (alloc : Nat → Bool) :
    ∀ (ks : List Int) (ht : HashTable) (m : Nat),
      ∀ e ∈ (insertKeys alloc ht m ks).2.2, loopEv e = true := by
  intro ks
  induction ks with
  | nil => intro ht m e he; simp [insertKeys] at he
  | cons k rest ih =>
      intro ht m e he
      rw [insertKeys] at he
      by_cases ha : alloc m
      · simp only [ha, if_true, List.mem_append, List.mem_cons] at he
        rcases he with (h | h | h | h) | h
        · subst h; rfl
        · subst h; rfl
        · subst h; rfl
        · simp at h
        · exact ih _ _ e h
      · simp only [ha, Bool.false_eq_true, if_false] at he
        exact ih _ _ e he

theorem delNode_mem (ht : HashTable) (k : Int) :
    ∀ e ∈ (delNode ht k).2, loopEv e = true := by
  intro e he
  rw [delNode] at he
  rcases h : ht_lookup ht k with _ | v <;> rw [h] at he <;>
    simp only [List.mem_cons, List.not_mem_nil, or_false] at he
  · rcases he with h1 | h1 | h1 <;> subst h1 <;> rfl
  · rcases he with h1 | h1 | h1 | h1 | h1 <;> subst h1 <;> rfl

theorem deleteKeys_mem :
    ∀ (ks : List Int) (ht : HashTable),
      ∀ e ∈ (deleteKeys ht ks).2, loopEv e = true := by
  intro ks
  induction ks with
  | nil => intro ht e he; simp [deleteKeys] at he
  | cons k rest ih =>
      intro ht e he
      rw [deleteKeys] at he
      simp only [List.mem_append] at he
      rcases he with h | h
      · exact delNode_mem ht k e h
      · exact ih _ e h

theorem loopBody_mem (env : MainEnv) (o coreNb : Nat) (st : LoopState) :
    ∀ e ∈ (loopBody env o coreNb st).2.1, loopEv e = true := by
  intro e he
  rw [loopBody] at he
  split at he
  · split at he
    · simp only [List.mem_append, List.mem_cons] at he
      rcases he with h | h | h
      · exact insertKeys_mem _ _ _ _ e h
      · subst h; rfl
      · simp at h; subst h; rfl
    · simp only [List.mem_append, List.mem_cons] at he
      rcases he with (h | h | h) | h
      · exact insertKeys_mem _ _ _ _ e h
      · subst h; rfl
      · simp at h; subst h; rfl
      · exact deleteKeys_mem _ _ e h
  · simp only [List.mem_append, List.mem_cons] at he
    rcases he with (h | h) | h
    · exact insertKeys_mem _ _ _ _ e h
    · simp at h; subst h; rfl
    · exact deleteKeys_mem _ _ e h

theorem mainLoop_mem (env : MainEnv) (o coreNb : Nat) :
    ∀ (fuel : Nat) (st : LoopState) (lp : LoopState × List Event),
      mainLoop env o coreNb fuel st = some lp → ∀ e ∈ lp.2, loopEv e = true := by
  intro fuel
  induction fuel with
  | zero => intro st lp h; simp [mainLoop] at h
  | succ n ih =>
      intro st lp h e he
      rw [mainLoop] at h
      by_cases hdone : (loopBody env o coreNb st).2.2
      · rw [if_pos hdone] at h
        cases h
        exact loopBody_mem env o coreNb st e he
      · rw [if_neg hdone] at h
        rcases hrec : mainLoop env o coreNb n (loopBody env o coreNb st).1 with _ | q <;>
          rw [hrec] at h
        · simp at h
        · cases h
          simp only [List.mem_append] at he
          rcases he with h1 | h1
          · exact loopBody_mem env o coreNb st e h1
          · exact ih _ q hrec e h1

theorem waitAux_mem (clock : Nat → Nat) (base : Nat) :
    ∀ (fuel idx : Nat) (r : Nat × List Event),
      waitAux clock base fuel idx = some r → ∀ e ∈ r.2, e = Event.sleep 1 := by
  intro fuel
  induction fuel with
  | zero => intro idx r h; simp [waitAux] at h
  | succ n ih =>
      intro idx r h e he
      rw [waitAux] at h
      by_cases hc : clock idx = base
      · rw [if_pos hc] at h
        rcases hrec : waitAux clock base n (idx + 1) with _ | q <;> rw [hrec] at h
        · simp at h
        · cases h
          simp only [List.mem_cons] at he
          rcases he with h1 | h1
          · exact h1
          · exact ih _ q hrec e h1
      · rw [if_neg hc] at h
        cases h
        simp only [List.mem_cons, List.not_mem_nil, or_false] at he
        exact he

/-- Events an insert batch can emit. -/
def insEv : Event → Bool
  | Event.readLock => true
  | Event.readUnlock => true
  | Event.insert _ _ => true
  | _ => false

/-- Events a remove batch can emit. -/
def delEv : Event → Bool
  | Event.readLock => true
  | Event.readUnlock => true
  | Event.lookupEv _ => true
  | Event.unlink _ => true
  | Event.deferFree _ => true
  | _ => false

theorem insEv_spec (e : Event) (h : insEv e = true) :
    isStats e = false ∧ isUnlinkEv e = false := by
  cases e <;> simp_all [insEv, isStats, isUnlinkEv]

theorem delEv_spec (e : Event) (h : delEv e = true) : isStats e = false := by
  cases e <;> simp_all [delEv, isStats]

theorem loopEv_spec (e : Event) (h : loopEv e = true) :
    isCancel e = false ∧ isJoin e = false ∧ isStart e = false ∧
      isAffinity e = false ∧ isTotalEv e = false ∧ isMsg e = false := by
  cases e <;> simp_all [loopEv, isCancel, isJoin, isStart, isAffinity, isTotalEv, isMsg]

theorem insertKeys_mem_ins (alloc : Nat → Bool) :
    ∀ (ks : List Int) (ht : HashTable) (m : Nat),
      ∀ e ∈ (insertKeys alloc ht m ks).2.2, insEv e = true := by
  intro ks
  induction ks with
  | nil => intro ht m e he; simp [insertKeys] at he
  | cons k rest ih =>
      intro ht m e he
      rw [insertKeys] at he
      by_cases ha : alloc m
      · simp only [ha, if_true, List.mem_append, List.mem_cons] at he
        rcases he with (h | h | h | h) | h
        · subst h; rfl
        · subst h; rfl
        · subst h; rfl
        · simp at h
        · exact ih _ _ e h
      · simp only [ha, Bool.false_eq_true, if_false] at he
        exact ih _ _ e he

theorem delNode_mem_del (ht : HashTable) (k : Int) :
    ∀ e ∈ (delNode ht k).2, delEv e = true := by
  intro e he
  rw [delNode] at he
  rcases h : ht_lookup ht k with _ | v <;> rw [h] at he <;>
    simp only [List.mem_cons, List.not_mem_nil, or_false] at he
  · rcases he with h1 | h1 | h1 <;> subst h1 <;> rfl
  · rcases he with h1 | h1 | h1 | h1 | h1 <;> subst h1 <;> rfl

theorem deleteKeys_mem_del :
    ∀ (ks : List Int) (ht : HashTable),
      ∀ e ∈ (deleteKeys ht ks).2, delEv e = true := by
  intro ks
  induction ks with
  | nil => intro ht e he; simp [deleteKeys] at he
  | cons k rest ih =>
      intro ht e he
      rw [deleteKeys] at he
      simp only [List.mem_append] at he
      rcases he with h | h
      · exact delNode_mem_del ht k e h
      · exact ih _ e h

theorem insertKeys_no_stats (alloc : Nat → Bool) (ks : List Int) (ht : HashTable) (m : Nat) :
    (insertKeys alloc ht m ks).2.2.countP isStats = 0 :=
  countP_zero_of _ _ (fun e he => (insEv_spec e (insertKeys_mem_ins alloc ks ht m e he)).1)

theorem insertKeys_no_unlink (alloc : Nat → Bool) (ks : List Int) (ht : HashTable) (m : Nat) :
    (insertKeys alloc ht m ks).2.2.countP isUnlinkEv = 0 :=
  countP_zero_of _ _ (fun e he => (insEv_spec e (insertKeys_mem_ins alloc ks ht m e he)).2)

theorem deleteKeys_no_stats (ks : List Int) (ht : HashTable) :
    (deleteKeys ht ks).2.countP isStats = 0 :=
  countP_zero_of _ _ (fun e he => delEv_spec e (deleteKeys_mem_del ks ht e he))

/- ------------------------------------------------------------------ -/
/- Helper lemmas: main-loop structure                                  -/
/- ------------------------------------------------------------------ -/

theorem loopBody_stats (env : MainEnv) (o coreNb : Nat) (st : LoopState) :
    (loopBody env o coreNb st).2.1.countP isStats =
      if env.clock st.clockIdx ≠ st.tvLastsec then 1 else 0 := by
  rw [loopBody]
  split
  · split <;>
      rename_i htick _ <;>
      simp only [if_pos htick, List.countP_append, insertKeys_no_stats,
        deleteKeys_no_stats, List.countP_cons, List.countP_nil] <;>
      rfl
  · rename_i htick
    simp only [if_neg htick, List.countP_append, insertKeys_no_stats,
      deleteKeys_no_stats, List.countP_cons, List.countP_nil]
    rfl

theorem loopBody_remaining (env : MainEnv) (o coreNb : Nat) (st : LoopState) :
    (loopBody env o coreNb st).1.remaining =
      if env.clock st.clockIdx ≠ st.tvLastsec then st.remaining - 1 else st.remaining := by
  rw [loopBody]
  split
  · split <;> rename_i htick _ <;> simp [if_pos htick]
  · rename_i htick
    simp [if_neg htick]

theorem loopBody_done_iff (env : MainEnv) (o coreNb : Nat) (st : LoopState) :
    (loopBody env o coreNb st).2.2 = true ↔
      (env.clock st.clockIdx ≠ st.tvLastsec ∧ st.remaining - 1 = 0) := by
  rw [loopBody]
  split
  · split <;> rename_i htick hrem <;> simp [htick, hrem]
  · rename_i htick
    simp [htick]

theorem mainLoop_stats_count (env : MainEnv) (o coreNb : Nat) :
    ∀ (fuel : Nat) (st : LoopState) (lp : LoopState × List Event),
      mainLoop env o coreNb fuel st = some lp → 0 < st.remaining →
      lp.2.countP isStats = st.remaining.toNat := by
  intro fuel
  induction fuel with
  | zero => intro st lp h _; simp [mainLoop] at h
  | succ n ih =>
      intro st lp h hrem
      rw [mainLoop] at h
      by_cases hdone : (loopBody env o coreNb st).2.2
      · rw [if_pos hdone] at h
        cases h
        have hd := (loopBody_done_iff env o coreNb st).1 hdone
        rw [loopBody_stats, if_pos hd.1]
        omega
      · rw [if_neg hdone] at h
        rcases hrec : mainLoop env o coreNb n (loopBody env o coreNb st).1 with _ | q <;>
          rw [hrec] at h
        · simp at h
        · cases h
          have hnd : ¬ (env.clock st.clockIdx ≠ st.tvLastsec ∧ st.remaining - 1 = 0) :=
            fun hc => hdone ((loopBody_done_iff env o coreNb st).2 hc)
          by_cases htick : env.clock st.clockIdx ≠ st.tvLastsec
          · have hrem1 : (loopBody env o coreNb st).1.remaining = st.remaining - 1 := by
              rw [loopBody_remaining, if_pos htick]
            have hpos : 0 < (loopBody env o coreNb st).1.remaining := by
              rw [hrem1]
              have : st.remaining - 1 ≠ 0 := fun hc => hnd ⟨htick, hc⟩
              omega
            have hq := ih _ q hrec hpos
            simp only [List.countP_append, hq, loopBody_stats, if_pos htick, hrem1]
            omega
          · have hrem1 : (loopBody env o coreNb st).1.remaining = st.remaining := by
              rw [loopBody_remaining, if_neg htick]
            have hpos : 0 < (loopBody env o coreNb st).1.remaining := by omega
            have hq := ih _ q hrec hpos
            simp only [List.countP_append, hq, loopBody_stats, if_neg htick, hrem1]
            omega

theorem mainLoop_countP_zero (env : MainEnv) (o coreNb : Nat) (p : Event → Bool)
    (hp : ∀ e, loopEv e = true → p e = false)
    (fuel : Nat) (st : LoopState) (lp : LoopState × List Event)
    (h : mainLoop env o coreNb fuel st = some lp) : lp.2.countP p = 0 :=
  countP_zero_of _ _ (fun e he => hp e (mainLoop_mem env o coreNb fuel st lp h e he))

/- ------------------------------------------------------------------ -/
/- Helper lemmas: the hash table model                                 -/
/- ------------------------------------------------------------------ -/

theorem ht_lookup_eq_none_iff : ∀ (ht : HashTable) (k : Int),
    ht_lookup ht k = none ↔ k ∉ ht.map Prod.fst := by
  intro ht k
  induction ht with
  | nil => simp [ht_lookup]
  | cons p rest ih =>
      by_cases h : p.1 = k
      · simp [ht_lookup, h]
      · simp [ht_lookup, h, ih]
        omega

theorem ht_lookup_eraseP_ne (k kq : Int) (h : kq ≠ k) :
    ∀ ht : HashTable, ht_lookup (ht.eraseP (fun p => p.1 == k)) kq = ht_lookup ht kq := by
  intro ht
  induction ht with
  | nil => rfl
  | cons p rest ih =>
      rw [List.eraseP_cons]
      by_cases hpk : p.1 = k
      · have : (p.1 == k) = true := beq_iff_eq.2 hpk
        rw [this]
        simp only [cond_true]
        rw [ht_lookup, if_neg (by omega)]
      · have : (p.1 == k) = false := by simp [hpk]
        rw [this]
        simp only [cond_false]
        by_cases hq : p.1 = kq
        · rw [ht_lookup, if_pos hq, ht_lookup, if_pos hq]
        · rw [ht_lookup, if_neg hq, ht_lookup, if_neg hq, ih]

theorem ht_lookup_eraseP_absent (ht : HashTable) (k k0 : Int) (h : ht_lookup ht k = none) :
    ht_lookup (ht.eraseP (fun p => p.1 == k0)) k = none := by
  rw [ht_lookup_eq_none_iff] at *
  intro hmem
  exact h (((ht.eraseP_sublist (p := fun p => p.1 == k0)).map Prod.fst).subset hmem)

theorem ht_lookup_eraseP_self (k : Int) :
    ∀ ht : HashTable, uniqKeys ht →
      ht_lookup (ht.eraseP (fun p => p.1 == k)) k = none := by
  intro ht
  induction ht with
  | nil => intro _; rfl
  | cons p rest ih =>
      intro hu
      simp only [uniqKeys, List.map_cons, List.nodup_cons] at hu
      rw [List.eraseP_cons]
      by_cases hpk : p.1 = k
      · have : (p.1 == k) = true := beq_iff_eq.2 hpk
        rw [this]
        simp only [cond_true]
        rw [ht_lookup_eq_none_iff]
        rw [hpk] at hu
        exact hu.1
      · have : (p.1 == k) = false := by simp [hpk]
        rw [this]
        simp only [cond_false]
        rw [ht_lookup, if_neg hpk]
        exact ih hu.2

theorem uniqKeys_eraseP (ht : HashTable) (k : Int) (hu : uniqKeys ht) :
    uniqKeys (ht.eraseP (fun p => p.1 == k)) :=
  hu.sublist ((ht.eraseP_sublist (p := fun p => p.1 == k)).map Prod.fst)

theorem ht_lookup_addReplace_self (ht : HashTable) (k v : Int) :
    ht_lookup (addReplace ht k v) k = some v := by
  simp [addReplace, ht_lookup]

theorem ht_lookup_addReplace_ne (ht : HashTable) (k v kq : Int) (h : kq ≠ k) :
    ht_lookup (addReplace ht k v) kq = ht_lookup ht kq := by
  rw [addReplace, ht_lookup, if_neg (by omega)]
  exact ht_lookup_eraseP_ne k kq h ht

theorem uniqKeys_addReplace (ht : HashTable) (k v : Int) (hu : uniqKeys ht) :
    uniqKeys (addReplace ht k v) := by
  rw [uniqKeys, addReplace, List.map_cons, List.nodup_cons]
  constructor
  · rw [← ht_lookup_eq_none_iff]
    exact ht_lookup_eraseP_self k ht hu
  · exact uniqKeys_eraseP ht k hu

/- ------------------------------------------------------------------ -/
/- Helper lemmas: insert and remove batches                            -/
/- ------------------------------------------------------------------ -/

theorem insertKeys_present (alloc : Nat → Bool) :
    ∀ (ks : List Int) (ht : HashTable) (m : Nat) (k : Int),
      ht_lookup ht k ≠ none → ht_lookup (insertKeys alloc ht m ks).1 k ≠ none := by
  intro ks
  induction ks with
  | nil => intro ht m k h; exact h
  | cons k0 rest ih =>
      intro ht m k h
      rw [insertKeys]
      by_cases ha : alloc m
      · rw [if_pos ha]
        apply ih
        by_cases hk : k = k0
        · subst hk
          rw [ht_lookup_addReplace_self]
          simp
        · rw [ht_lookup_addReplace_ne _ _ _ _ hk]
          exact h
      · rw [if_neg ha]
        exact ih _ _ k h

theorem insertKeys_all_present (alloc : Nat → Bool) (hall : ∀ m, alloc m = true) :
    ∀ (ks : List Int) (ht : HashTable) (m : Nat) (k : Int),
      k ∈ ks → ht_lookup (insertKeys alloc ht m ks).1 k ≠ none := by
  intro ks
  induction ks with
  | nil => intro ht m k h; simp at h
  | cons k0 rest ih =>
      intro ht m k h
      rw [insertKeys, if_pos (hall m)]
      rcases List.mem_cons.1 h with h1 | h1
      · subst h1
        apply insertKeys_present
        rw [ht_lookup_addReplace_self]
        simp
      · exact ih _ _ k h1

theorem insertKeys_uniq (alloc : Nat → Bool) :
    ∀ (ks : List Int) (ht : HashTable) (m : Nat),
      uniqKeys ht → uniqKeys (insertKeys alloc ht m ks).1 := by
  intro ks
  induction ks with
  | nil => intro ht m h; exact h
  | cons k0 rest ih =>
      intro ht m h
      rw [insertKeys]
      by_cases ha : alloc m
      · rw [if_pos ha]
        exact ih _ _ (uniqKeys_addReplace ht k0 0 h)
      · rw [if_neg ha]
        exact ih _ _ h

theorem insertKeys_evs (alloc : Nat → Bool) (hall : ∀ m, alloc m = true) :
    ∀ (ks : List Int) (ht : HashTable) (m : Nat),
      (insertKeys alloc ht m ks).2.2 = insEvs ks := by
  intro ks
  induction ks with
  | nil => intro ht m; rfl
  | cons k0 rest ih =>
      intro ht m
      rw [insertKeys, if_pos (hall m), insEvs, List.flatMap_cons]
      simp only [List.cons_append, List.nil_append]
      rw [ih]
      rfl

theorem deleteKeys_preserve_none :
    ∀ (ks : List Int) (ht : HashTable) (k : Int),
      ht_lookup ht k = none → ht_lookup (deleteKeys ht ks).1 k = none := by
  intro ks
  induction ks with
  | nil => intro ht k h; exact h
  | cons k0 rest ih =>
      intro ht k h
      rw [deleteKeys]
      rcases h0 : ht_lookup ht k0 with _ | v <;> rw [delNode, h0]
      · exact ih _ k h
      · exact ih _ k (ht_lookup_eraseP_absent ht k k0 h)

theorem deleteKeys_spec :
    ∀ (ks : List Int) (ht : HashTable), uniqKeys ht → ks.Nodup →
      (∀ k ∈ ks, ht_lookup ht k ≠ none) →
      (deleteKeys ht ks).2 = delEvs ks ∧
        (∀ k ∈ ks, ht_lookup (deleteKeys ht ks).1 k = none) := by
  intro ks
  induction ks with
  | nil => intro ht _ _ _; exact ⟨rfl, by simp⟩
  | cons k0 rest ih =>
      intro ht hu hnd hpres
      rw [List.nodup_cons] at hnd
      rcases h0 : ht_lookup ht k0 with _ | v
      · exact absurd h0 (hpres k0 (by simp))
      · have hstep : delNode ht k0 =
            (ht.eraseP (fun p => p.1 == k0),
             [Event.readLock, Event.lookupEv k0, Event.unlink k0, Event.deferFree k0,
              Event.readUnlock]) := by
          rw [delNode, h0]
        have hu1 : uniqKeys (ht.eraseP (fun p => p.1 == k0)) := uniqKeys_eraseP ht k0 hu
        have hpres1 : ∀ k ∈ rest, ht_lookup (ht.eraseP (fun p => p.1 == k0)) k ≠ none := by
          intro k hk
          have hne : k ≠ k0 := fun hc => hnd.1 (hc ▸ hk)
          rw [ht_lookup_eraseP_ne k0 k hne]
          exact hpres k (by simp [hk])
        have hrec := ih (ht.eraseP (fun p => p.1 == k0)) hu1 hnd.2 hpres1
        constructor
        · rw [deleteKeys, hstep]
          dsimp only
          rw [hrec.1]
          simp [delEvs]
        · intro k hk
          rcases List.mem_cons.1 hk with h1 | h1
          · subst h1
            rw [deleteKeys, hstep]
            exact deleteKeys_preserve_none rest _ k (ht_lookup_eraseP_self k ht hu)
          · rw [deleteKeys, hstep]
            exact hrec.2 k h1

theorem keyRange_nodup (n : Nat) : (keyRange n).Nodup := by
  have h : Function.Injective Int.ofNat := fun a b hh => Int.ofNat.inj hh
  exact List.Nodup.map h (List.nodup_range n)

/- ------------------------------------------------------------------ -/
/- Helper lemmas: the reader loop                                      -/
/- ------------------------------------------------------------------ -/

theorem readerIter_evs (ht : HashTable) (td : ThreadData) :
    (readerIter ht td).2 = [Event.readLock, Event.lookupEv 0, Event.readUnlock] := by
  cases h : ht_lookup ht 0 <;> simp [readerIter, h]

theorem readerIter_sum (ht : HashTable) (td : ThreadData)
    (hb : td.key_found + td.key_not_found + 1 < U64) :
    (readerIter ht td).1.key_found + (readerIter ht td).1.key_not_found
      = td.key_found + td.key_not_found + 1 := by
  cases h : ht_lookup ht 0 <;> simp only [readerIter, h] <;> simp only [U64] at * <;>
    rw [Nat.mod_eq_of_lt (by omega)] <;> omega

theorem readerLoop_sum (hts : Nat → HashTable) :
    ∀ (n t : Nat) (td : ThreadData), td.key_found + td.key_not_found + n < U64 →
      (readerLoop hts t n td).1.key_found + (readerLoop hts t n td).1.key_not_found
        = td.key_found + td.key_not_found + n := by
  intro n
  induction n with
  | zero => intro t td _; simp [readerLoop]
  | succ m ih =>
      intro t td h
      have h1 : td.key_found + td.key_not_found + 1 < U64 := by omega
      have hstep := readerIter_sum (hts t) td h1
      have h2 : (readerIter (hts t) td).1.key_found +
          (readerIter (hts t) td).1.key_not_found + m < U64 := by omega
      have hr := ih (t + 1) (readerIter (hts t) td).1 h2
      simp only [readerLoop]
      omega

theorem readerLoop_counts (hts : Nat → HashTable) :
    ∀ (n t : Nat) (td : ThreadData),
      (readerLoop hts t n td).2.countP isMsg = 0 ∧
        (readerLoop hts t n td).2.countP isLookupEv = n := by
  intro n
  induction n with
  | zero => intro t td; simp [readerLoop, List.countP_nil]
  | succ m ih =>
      intro t td
      have hr := ih (t + 1) (readerIter (hts t) td).1
      simp only [readerLoop, List.countP_append, readerIter_evs, hr.1, hr.2]
      constructor
      · simp [List.countP_cons, isMsg]
      · simp [List.countP_cons, isLookupEv]
        omega

theorem readerIterAt_frame (ht : HashTable) :
    ∀ (tds : List ThreadData) (i j : Nat), j ≠ i →
      (readerIterAt ht tds i)[j]? = tds[j]? := by
  intro tds
  induction tds with
  | nil => intro i j _; cases i <;> rfl
  | cons td rest ih =>
      intro i j hij
      cases i with
      | zero =>
          cases j with
          | zero => exact absurd rfl hij
          | succ m => simp [readerIterAt]
      | succ k =>
          cases j with
          | zero => simp [readerIterAt]
          | succ m =>
              simp only [readerIterAt, List.getElem?_cons_succ]
              exact ih k m (fun hc => hij (by omega))

theorem readerPhase_not_stopped : ∀ n, readerPhaseAfter n ≠ ReaderPhase.stopped := by
  intro n
  induction n with
  | zero => simp [readerPhaseAfter]
  | succ m ih =>
      rw [readerPhaseAfter]
      cases h : readerPhaseAfter m <;> simp [readerPhaseStep]
      exact absurd h ih

/- ------------------------------------------------------------------ -/
/- Helper lemmas: the successful path through main                     -/
/- ------------------------------------------------------------------ -/

theorem cMain_run_shape (coreList : List Int) (seconds objects : Int) (env : MainEnv)
    (fuel : Nat) (hc : 2 ≤ coreList.length) (hs : 5 ≤ seconds) (ho : 1 ≤ objects)
    (hht : env.htNewOk = true) (hattr : env.attrInitOk = true)
    (r : Int × List Event × HashTable)
    (hr : cMain coreList seconds objects env fuel = some r) :
    ∃ w lp,
      waitAux env.clock (env.clock 0) fuel 1 = some w ∧
      mainLoop env objects.toNat (coreList.length - 1) fuel
          { ht := [], old := List.replicate (coreList.length - 1) (0, 0),
            tvLastsec := env.clock w.1, remaining := seconds,
            clockIdx := w.1 + 1, sampleIdx := 0, mallocIdx := 0 } = some lp ∧
      r = (0,
        w.2 ++
          (((List.range (coreList.length - 1)).map
              (fun i => Event.startThread i (coreList.getD i 0))) ++
            (Event.setAffinity (coreList.getLastD 0) ::
              (lp.2 ++
                [Event.printTotal
                  (finalTriple
                    (sum64 ((sampleCounters env lp.1.sampleIdx (coreList.length - 1)).map
                      Prod.fst))
                    (sum64 ((sampleCounters env lp.1.sampleIdx (coreList.length - 1)).map
                      Prod.snd))
                    seconds.toNat).1
                  (finalTriple
                    (sum64 ((sampleCounters env lp.1.sampleIdx (coreList.length - 1)).map
                      Prod.fst))
                    (sum64 ((sampleCounters env lp.1.sampleIdx (coreList.length - 1)).map
                      Prod.snd))
                    seconds.toNat).2.1
                  (finalTriple
                    (sum64 ((sampleCounters env lp.1.sampleIdx (coreList.length - 1)).map
                      Prod.fst))
                    (sum64 ((sampleCounters env lp.1.sampleIdx (coreList.length - 1)).map
                      Prod.snd))
                    seconds.toNat).2.2]))),
        lp.1.ht) := by
  rw [cMain] at hr
  rw [if_neg (by omega), if_neg (by omega), if_neg (by omega),
    if_neg (by simp [hht]), if_neg (by simp [hattr])] at hr
  split at hr
  · simp at hr
  · rename_i w hw
    split at hr
    · simp at hr
    · rename_i lp hl
      exact ⟨w, lp, hw, hl, (Option.some.inj hr).symm⟩

/-- A run environment for exercising the Stats Aggregator: every counter
read observes (5, 7). -/
def envS : MainEnv :=
  { envA with readCounters := fun _ _ => (5, 7) }

/-- A loop state one tick into a run, with one worker whose previous
snapshot is (2, 3). -/
def stS : LoopState :=
  { ht := [], old := [(2, 3)], tvLastsec := 0, remaining := 5,
    clockIdx := 1, sampleIdx := 0, mallocIdx := 0 }

/-- The loop state of a cycle in which the second has not advanced. -/
def stW : LoopState :=
  { ht := [], old := [(0, 0)], tvLastsec := 3, remaining := 5,
    clockIdx := 3, sampleIdx := 0, mallocIdx := 0 }

/-- The loop state of the final cycle: the second advances and the
countdown stands at 1. -/
def stW2 : LoopState :=
  { ht := [], old := [(0, 0)], tvLastsec := 0, remaining := 1,
    clockIdx := 4, sampleIdx := 0, mallocIdx := 0 }

theorem trace_countP_eq (p : Event → Bool) (w2 start2 loop2 tail2 : List Event) (m : Int)
    (hw2 : ∀ e ∈ w2, p e = false) (hs2 : ∀ e ∈ start2, p e = false)
    (hm : p (Event.setAffinity m) = false) :
    (w2 ++ (start2 ++ (Event.setAffinity m :: (loop2 ++ tail2)))).countP p
      = loop2.countP p + tail2.countP p := by
  rw [List.countP_append, List.countP_append, List.countP_cons, List.countP_append,
    countP_zero_of p w2 hw2, countP_zero_of p start2 hs2, hm]
  simp

theorem trace_filter_eq (p : Event → Bool) (w2 start2 loop2 tail2 : List Event) (m : Int)
    (hw2 : ∀ e ∈ w2, p e = false) (hl2 : ∀ e ∈ loop2, p e = false)
    (ht2 : ∀ e ∈ tail2, p e = false) :
    (w2 ++ (start2 ++ (Event.setAffinity m :: (loop2 ++ tail2)))).filter p
      = start2.filter p ++ List.filter p [Event.setAffinity m] := by
  rw [List.filter_append, List.filter_append, List.filter_cons, List.filter_append,
    filter_nil_of p w2 hw2, filter_nil_of p loop2 hl2, filter_nil_of p tail2 ht2]
  cases hp : p (Event.setAffinity m) <;> simp [List.filter_cons, hp]

/- ------------------------------------------------------------------ -/
/- Claims                                                              -/
/- ------------------------------------------------------------------ -/

/-- C10: del_node with a key that is absent from the container is a
no-op: the container is unchanged and the trace holds no unlink and no
deferFree (no reclamation callback is scheduled); only when the lookup
finds a node is that node unlinked and its free deferred through the RCU
callback. -/
theorem c10_del_node_absent_noop (ht : HashTable) (k : Int) :
    (ht_lookup ht k = none →
       delNode ht k = (ht, [Event.readLock, Event.lookupEv k, Event.readUnlock])) ∧
    (∀ v, ht_lookup ht k = some v →
       (delNode ht k).2 =
         [Event.readLock, Event.lookupEv k, Event.unlink k, Event.deferFree k,
          Event.readUnlock] ∧
       (delNode ht k).1 = ht.eraseP (fun p => p.1 == k)) := by
  constructor
  · intro h
    rw [delNode, h]
  · intro v h
    rw [delNode, h]
    exact ⟨rfl, rfl⟩

/-- Witness for C10 at a concrete container: key 0 is absent from
[(1, 2)] and deleting it changes nothing, while deleting the present key
1 unlinks it and schedules its deferred free. -/
theorem c10_witness :
    delNode [((1 : Int), (2 : Int))] 0
        = ([(1, 2)], [Event.readLock, Event.lookupEv 0, Event.readUnlock]) ∧
    (delNode [((1 : Int), (2 : Int))] 1).2
        = [Event.readLock, Event.lookupEv 1, Event.unlink 1, Event.deferFree 1,
           Event.readUnlock] :=
  ⟨(c10_del_node_absent_noop [(1, 2)] 0).1 (by decide),
   ((c10_del_node_absent_noop [(1, 2)] 1).2 2 (by decide)).1⟩

/-- C5: with fewer than 2 cores, a duration below 5 seconds or a
non-positive object count, main prints one validation message and exits
with status 1; the trace holds nothing else, so no thread is started and
no container operation is attempted. -/
theorem c5_validation_fails_fast (coreList : List Int) (seconds objects : Int)
    (env : MainEnv) (fuel : Nat)
    (hbad : coreList.length < 2 ∨ seconds < 5 ∨ objects < 1) :
    ∃ msg, cMain coreList seconds objects env fuel = some (1, [Event.printMsg msg], []) := by
  rw [cMain]
  split
  · exact ⟨_, rfl⟩
  · rename_i h1
    split
    · exact ⟨_, rfl⟩
    · rename_i h2
      split
      · exact ⟨_, rfl⟩
      · rename_i h3
        rcases hbad with h | h | h
        · exact absurd h h1
        · exact absurd h h2
        · exact absurd h h3

/-- Witness for C5: a single-core configuration is rejected with exit
status 1 before anything else happens. -/
theorem c5_witness :
    ∃ msg, cMain [0] 5 1 envA 10 = some (1, [Event.printMsg msg], []) :=
  c5_validation_fails_fast [0] 5 1 envA 10 (Or.inl (by decide))

/-- C9 (amended): a failing pthread_setaffinity_np result is silently
discarded: read_rcu behaves identically for every affinity result, prints
no message at all, and still performs its n lookups.  The claim said the
failure is logged; the code never logs it. -/
theorem c9_amended_affinity_ignored (core affRes : Int) (hts : Nat → HashTable)
    (n : Nat) (td : ThreadData) :
    read_rcu_run core affRes hts n td = read_rcu_run core 0 hts n td ∧
    (read_rcu_run core affRes hts n td).2.countP isMsg = 0 ∧
    (read_rcu_run core affRes hts n td).2.countP isLookupEv = n := by
  have h := readerLoop_counts hts n 0 td
  refine ⟨rfl, ?_, ?_⟩
  · simp [read_rcu_run, set_affinity, List.countP_append, List.countP_cons, isMsg, h.1]
  · simp only [read_rcu_run, set_affinity, List.countP_append, List.countP_cons,
      List.countP_nil, h.2]
    simp [isLookupEv]

/-- Counterexample for C9 as stated: with a failing affinity result (22,
EINVAL) the reader emits no printMsg whatsoever — nothing is logged — yet
it keeps running: after 3 iterations against an empty table its
key_not_found counter is 3. -/
theorem c9_counterexample :
    (read_rcu_run 3 22 (fun _ => []) 3
        { key_not_found := 0, key_found := 0, core_id := 3 }).2.countP isMsg = 0 ∧
    (read_rcu_run 3 22 (fun _ => []) 3
        { key_not_found := 0, key_found := 0, core_id := 3 }).1.key_not_found = 3 := by
  constructor <;> decide

/-- C4: one read_rcu iteration emits exactly one lookup, between the
read-lock and the read-unlock; it raises the sum of the two own counters
by exactly 1; it leaves every other worker of the thread_data array
untouched; and n iterations from zeroed counters leave
key_found + key_not_found = n, the number of completed iterations. -/
theorem c4_reader_iteration (ht : HashTable) (td : ThreadData) (tds : List ThreadData)
    (i j : Nat) (hts : Nat → HashTable) (n : Nat) (cid : Int)
    (hb : td.key_found + td.key_not_found + 1 < U64) (hij : j ≠ i) (hn : n < U64) :
    (readerIter ht td).2 = [Event.readLock, Event.lookupEv 0, Event.readUnlock] ∧
    (readerIter ht td).1.key_found + (readerIter ht td).1.key_not_found
      = td.key_found + td.key_not_found + 1 ∧
    (readerIterAt ht tds i)[j]? = tds[j]? ∧
    (readerLoop hts 0 n { key_not_found := 0, key_found := 0, core_id := cid }).1.key_found
      + (readerLoop hts 0 n
          { key_not_found := 0, key_found := 0, core_id := cid }).1.key_not_found = n := by
  refine ⟨readerIter_evs ht td, readerIter_sum ht td hb,
    readerIterAt_frame ht tds i j hij, ?_⟩
  have h := readerLoop_sum hts n 0
    { key_not_found := 0, key_found := 0, core_id := cid } (by simpa using hn)
  simpa using h

/-- Witness for C4: 4 iterations against an always-empty table leave a
counter sum of exactly 4. -/
theorem c4_witness :
    (readerLoop (fun _ => ([] : HashTable)) 0 4
        { key_not_found := 0, key_found := 0, core_id := 7 }).1.key_found
      + (readerLoop (fun _ => ([] : HashTable)) 0 4
          { key_not_found := 0, key_found := 0, core_id := 7 }).1.key_not_found = 4 :=
  (c4_reader_iteration [(0, 5)] { key_not_found := 3, key_found := 2, core_id := 0 }
    [{ key_not_found := 0, key_found := 0, core_id := 0 },
     { key_not_found := 1, key_found := 1, core_id := 1 }]
    0 1 (fun _ => []) 4 7 (by decide) (by decide) (by decide)).2.2.2

/-- C3: when the main loop sees that the wall-clock second advanced, it
prints one triple per worker and stores the sampled counters as the new
previous snapshot; with monotonically non-decreasing in-range counters
each printed triple equals the true non-negative deltas, printed as
(delta_found + delta_not_found, delta_not_found, delta_found). -/
theorem c3_stats_aggregator (env : MainEnv) (o coreNb : Nat) (st : LoopState)
    (htick : env.clock st.clockIdx ≠ st.tvLastsec)
    (hmono : List.Forall₂ (fun nw pv => pv.1 ≤ nw.1 ∧ pv.2 ≤ nw.2 ∧ nw.1 + nw.2 < U64)
      (sampleCounters env st.sampleIdx coreNb) st.old) :
    (loopBody env o coreNb st).1.old = sampleCounters env st.sampleIdx coreNb ∧
    Event.printStats
        (List.zipWith (fun nw pv => (nw.1 - pv.1 + (nw.2 - pv.2), nw.2 - pv.2, nw.1 - pv.1))
          (sampleCounters env st.sampleIdx coreNb) st.old)
      ∈ (loopBody env o coreNb st).2.1 := by
  have heq := statsAll_eq _ _ hmono
  rw [loopBody]
  split
  · split
    · exact ⟨rfl, by rw [← heq]; simp⟩
    · exact ⟨rfl, by rw [← heq]; simp⟩
  · rename_i h
    exact absurd htick h

/-- Witness for C3: one worker, sampled counters (5, 7), previous
snapshot (2, 3): the aggregator prints (3 + 4, 4, 3) and retains (5, 7). -/
theorem c3_witness :
    (loopBody envS 1 1 stS).1.old = sampleCounters envS 0 1 ∧
    Event.printStats
        (List.zipWith (fun nw pv => (nw.1 - pv.1 + (nw.2 - pv.2), nw.2 - pv.2, nw.1 - pv.1))
          (sampleCounters envS 0 1) stS.old)
      ∈ (loopBody envS 1 1 stS).2.1 :=
  c3_stats_aggregator envS 1 1 stS (by decide)
    (by
      have h : List.Forall₂
          (fun nw pv : Nat × Nat => pv.1 ≤ nw.1 ∧ pv.2 ≤ nw.2 ∧ nw.1 + nw.2 < U64)
          [(5, 7)] [(2, 3)] :=
        List.Forall₂.cons ⟨by decide, by decide, by decide⟩ List.Forall₂.nil
      exact h)

/-- C2 (amended): the three numbers of the final summary are
(total_found + total_not_found) / duration, total_not_found / duration
and total_found / duration in truncating unsigned 64-bit division, and
the totals are the plain sums of the per-worker counters whenever those
sums fit in 64 bits; because the division truncates, only
misses + hits ≤ total ≤ misses + hits + 1 holds, not the exact equality
the claim stated. -/
theorem c2_amended_final_summary (keyFound keyNotFound s : Nat) (l : List Nat)
    (hFN : keyFound + keyNotFound < U64) (hs : 0 < s) (hl : l.sum < U64) :
    finalTriple keyFound keyNotFound s
        = ((keyFound + keyNotFound) / s, keyNotFound / s, keyFound / s) ∧
    keyNotFound / s + keyFound / s ≤ (keyFound + keyNotFound) / s ∧
    (keyFound + keyNotFound) / s ≤ keyNotFound / s + keyFound / s + 1 ∧
    sum64 l = l.sum := by
  have h : (keyFound + keyNotFound) / s
      = keyFound / s + keyNotFound / s
        + if s ≤ keyFound % s + keyNotFound % s then 1 else 0 :=
    Nat.add_div hs
  have hb : keyNotFound / s + keyFound / s ≤ (keyFound + keyNotFound) / s ∧
      (keyFound + keyNotFound) / s ≤ keyNotFound / s + keyFound / s + 1 := by
    rcases le_or_lt s (keyFound % s + keyNotFound % s) with hc | hc
    · rw [if_pos hc] at h
      omega
    · rw [if_neg (by omega)] at h
      omega
  exact ⟨by rw [finalTriple, add64_eq _ _ hFN], hb.1, hb.2, sum64_eq l hl⟩

/-- Witness for C2 (amended) at totals 3 and 4 over 5 seconds. -/
theorem c2_witness :
    finalTriple 3 4 5 = (1, 0, 0) ∧ sum64 [1, 2] = 3 :=
  ⟨(c2_amended_final_summary 3 4 5 [1, 2] (by decide) (by decide) (by decide)).1,
   (c2_amended_final_summary 4 3 5 [1, 2] (by decide) (by decide) (by decide)).2.2.2⟩

/-- Counterexample for C2 as stated: a full bounded run (2 cores, 5
seconds, 1 object) in which every counter read observes found = 3 and
not_found = 3 prints the final summary 1 [0 + 0], and 1 is not 0 + 0:
truncating division breaks the claimed exact equality. -/
theorem c2_counterexample :
    (cMain [0, 1] 5 1 envB 60).map (fun r => lastTotal r.2.1) = some (some (1, 0, 0)) ∧
    (1 : Nat) ≠ 0 + 0 := by
  constructor <;> decide

/-- C1 (amended): in bounded mode every completed run prints exactly
duration_seconds per-second reports (the countdown is decremented once
per observed second advance and the loop breaks at zero), exits with
status 0 and prints exactly one final average; but the trace holds no
cancellation signal and no thread join — main never signals any shared
flag and never joins the readers — and the read_rcu loop, which checks no
flag, never reaches the Stopped phase: readers die only with the
process. -/
theorem c1_amended_no_cancellation (coreList : List Int) (seconds objects : Int)
    (env : MainEnv) (fuel : Nat)
    (hc : 2 ≤ coreList.length) (hs : 5 ≤ seconds) (ho : 1 ≤ objects)
    (hht : env.htNewOk = true) (hattr : env.attrInitOk = true)
    (hsome : (cMain coreList seconds objects env fuel).isSome = true) :
    (cMain coreList seconds objects env fuel).map
        (fun r => (r.1, r.2.1.countP isStats, r.2.1.countP isTotalEv,
                   r.2.1.countP isCancel, r.2.1.countP isJoin))
      = some (0, seconds.toNat, 1, 0, 0) ∧
    ∀ n, readerPhaseAfter n ≠ ReaderPhase.stopped := by
  refine ⟨?_, readerPhase_not_stopped⟩
  rcases Option.isSome_iff_exists.1 hsome with ⟨r, hr⟩
  obtain ⟨w, lp, hw, hl, hre⟩ :=
    cMain_run_shape coreList seconds objects env fuel hc hs ho hht hattr r hr
  subst hre
  have hwmem : ∀ p : Event → Bool, p (Event.sleep 1) = false → ∀ e ∈ w.2, p e = false :=
    fun p hp e he => by
      rw [waitAux_mem env.clock (env.clock 0) fuel 1 w hw e he]
      exact hp
  have hstart : ∀ p : Event → Bool, (∀ i c, p (Event.startThread i c) = false) →
      ∀ e ∈ (List.range (coreList.length - 1)).map
          (fun i => Event.startThread i (coreList.getD i 0)), p e = false :=
    fun p hp e he => by
      rcases List.mem_map.1 he with ⟨i, _, rfl⟩
      exact hp i _
  rw [hr, Option.map_some',
    trace_countP_eq isStats w.2 _ lp.2 _ _ (hwmem isStats rfl)
      (hstart isStats (fun i c => rfl)) rfl,
    trace_countP_eq isTotalEv w.2 _ lp.2 _ _ (hwmem isTotalEv rfl)
      (hstart isTotalEv (fun i c => rfl)) rfl,
    trace_countP_eq isCancel w.2 _ lp.2 _ _ (hwmem isCancel rfl)
      (hstart isCancel (fun i c => rfl)) rfl,
    trace_countP_eq isJoin w.2 _ lp.2 _ _ (hwmem isJoin rfl)
      (hstart isJoin (fun i c => rfl)) rfl,
    mainLoop_stats_count env objects.toNat (coreList.length - 1) fuel _ lp hl
      (by show (0 : Int) < seconds; omega),
    mainLoop_countP_zero env objects.toNat (coreList.length - 1) isTotalEv
      (fun e he => (loopEv_spec e he).2.2.2.2.1) fuel _ lp hl,
    mainLoop_countP_zero env objects.toNat (coreList.length - 1) isCancel
      (fun e he => (loopEv_spec e he).1) fuel _ lp hl,
    mainLoop_countP_zero env objects.toNat (coreList.length - 1) isJoin
      (fun e he => (loopEv_spec e he).2.1) fuel _ lp hl]
  rfl

/-- Witness for C1 (amended): the concrete 2-core, 5-second, 1-object
run with an always-advancing clock completes with exit 0, five
per-second reports, one final average, and no cancellation or join
event. -/
theorem c1_witness :
    (cMain [0, 1] 5 1 envA 60).map
        (fun r => (r.1, r.2.1.countP isStats, r.2.1.countP isTotalEv,
                   r.2.1.countP isCancel, r.2.1.countP isJoin))
      = some (0, 5, 1, 0, 0) ∧
    ∀ n, readerPhaseAfter n ≠ ReaderPhase.stopped :=
  c1_amended_no_cancellation [0, 1] 5 1 envA 60 (by decide) (by decide) (by decide)
    rfl rfl (by decide)

/-- Counterexample for C1 as stated: this completed bounded run ran its
full five ticks and terminated, yet its trace holds zero cancellation
signals and zero joins, so the Run Controller did not stop the readers
through any shared cancellation flag. -/
theorem c1_counterexample :
    (cMain [0, 1] 5 1 envA 60).map
        (fun r => (r.1, r.2.1.countP isCancel, r.2.1.countP isJoin, r.2.1.countP isStats))
      = some (0, 0, 0, 5) := by
  decide

/-- C6: in every completed bounded run, the startThread events are
exactly one per reader, in order, with reader i handed the i-th listed
core id, and the single setAffinity action of the main (mutator) thread
pins it to the last listed core id; a reader thread itself pins to the
core id it was handed as its very first action. -/
theorem c6_core_assignment (coreList : List Int) (seconds objects : Int)
    (env : MainEnv) (fuel : Nat)
    (hc : 2 ≤ coreList.length) (hs : 5 ≤ seconds) (ho : 1 ≤ objects)
    (hht : env.htNewOk = true) (hattr : env.attrInitOk = true)
    (hsome : (cMain coreList seconds objects env fuel).isSome = true) :
    (cMain coreList seconds objects env fuel).map
        (fun r => (r.2.1.filter isStart, r.2.1.filter isAffinity))
      = some ((List.range (coreList.length - 1)).map
            (fun i => Event.startThread i (coreList.getD i 0)),
          [Event.setAffinity (coreList.getLastD 0)]) ∧
    ∀ (core aff : Int) (hts : Nat → HashTable) (n : Nat) (td : ThreadData),
      (read_rcu_run core aff hts n td).2.head? = some (Event.setAffinity core) := by
  refine ⟨?_, fun core aff hts n td => rfl⟩
  rcases Option.isSome_iff_exists.1 hsome with ⟨r, hr⟩
  obtain ⟨w, lp, hw, hl, hre⟩ :=
    cMain_run_shape coreList seconds objects env fuel hc hs ho hht hattr r hr
  subst hre
  have hwmem : ∀ p : Event → Bool, p (Event.sleep 1) = false → ∀ e ∈ w.2, p e = false :=
    fun p hp e he => by
      rw [waitAux_mem env.clock (env.clock 0) fuel 1 w hw e he]
      exact hp
  have hloop : ∀ p : Event → Bool, (∀ e, loopEv e = true → p e = false) →
      ∀ e ∈ lp.2, p e = false :=
    fun p hp e he =>
      hp e (mainLoop_mem env objects.toNat (coreList.length - 1) fuel _ lp hl e he)
  rw [hr, Option.map_some',
    trace_filter_eq isStart w.2 _ lp.2 _ _ (hwmem isStart rfl)
      (hloop isStart (fun e he => (loopEv_spec e he).2.2.1)) (by intro e he; simp at he; rw [he]; rfl),
    trace_filter_eq isAffinity w.2 _ lp.2 _ _ (hwmem isAffinity rfl)
      (hloop isAffinity (fun e he => (loopEv_spec e he).2.2.2.1)) (by intro e he; simp at he; rw [he]; rfl),
    filter_self_of isStart _ (fun e he => by
      rcases List.mem_map.1 he with ⟨i, _, rfl⟩
      rfl),
    filter_nil_of isAffinity _ (fun e he => by
      rcases List.mem_map.1 he with ⟨i, _, rfl⟩
      rfl)]
  simp [List.filter_cons, isStart, isAffinity]

/-- Witness for C6: with cores 5, 7, 9 the two readers are started on
cores 5 and 7 in order, and the mutator pins itself to core 9, the last
one listed. -/
theorem c6_witness :
    (cMain [5, 7, 9] 5 1 envA 60).map
        (fun r => (r.2.1.filter isStart, r.2.1.filter isAffinity))
      = some ([Event.startThread 0 5, Event.startThread 1 7], [Event.setAffinity 9]) :=
  (c6_core_assignment [5, 7, 9] 5 1 envA 60 (by decide) (by decide) (by decide)
    rfl rfl (by decide)).1

/-- C7 (amended): a mutator cycle in which the second has not advanced
inserts keys 0..o-1 (each insert wrapped in a read-side critical
section), sleeps 1000 microseconds, then removes exactly those keys,
each removal unlinking the node and scheduling its free through the RCU
callback, never freeing synchronously; but the cycle in which the
countdown reaches zero breaks right after the stats print, so its
freshly inserted batch is never removed. -/
theorem c7_amended_mutator_cycle (env : MainEnv) (o coreNb : Nat) (st st2 : LoopState)
    (ht : HashTable) (m : Nat)
    (hall : ∀ i, env.mallocOk i = true)
    (hu : uniqKeys ht) (hpres : ∀ k ∈ keyRange o, ht_lookup ht k ≠ none)
    (hnt : env.clock st.clockIdx = st.tvLastsec)
    (htick2 : env.clock st2.clockIdx ≠ st2.tvLastsec) (hrem2 : st2.remaining = 1) :
    (loopBody env o coreNb st).2.1
      = (insertKeys env.mallocOk st.ht st.mallocIdx (keyRange o)).2.2 ++ [Event.sleep 1000]
        ++ (deleteKeys (insertKeys env.mallocOk st.ht st.mallocIdx (keyRange o)).1
              (keyRange o)).2 ∧
    (insertKeys env.mallocOk ht m (keyRange o)).2.2 = insEvs (keyRange o) ∧
    (∀ k ∈ keyRange o, ht_lookup (insertKeys env.mallocOk ht m (keyRange o)).1 k ≠ none) ∧
    (deleteKeys ht (keyRange o)).2 = delEvs (keyRange o) ∧
    (∀ k ∈ keyRange o, ht_lookup (deleteKeys ht (keyRange o)).1 k = none) ∧
    (loopBody env o coreNb st2).2.2 = true ∧
    (loopBody env o coreNb st2).2.1.countP isUnlinkEv = 0 ∧
    (∀ (ht3 : HashTable) (k : Int),
      Event.unlink k ∈ (delNode ht3 k).2 → Event.deferFree k ∈ (delNode ht3 k).2) ∧
    (∀ (ht3 : HashTable) (k k2 : Int), Event.freeSync k2 ∉ (delNode ht3 k).2) := by
  have hdel := deleteKeys_spec (keyRange o) ht hu (keyRange_nodup o) hpres
  refine ⟨?_, insertKeys_evs env.mallocOk hall (keyRange o) ht m,
    fun k hk => insertKeys_all_present env.mallocOk hall (keyRange o) ht m k hk,
    hdel.1, hdel.2, ?_, ?_, ?_, ?_⟩
  · rw [loopBody, if_neg (by simp [hnt])]
  · exact (loopBody_done_iff env o coreNb st2).2 ⟨htick2, by omega⟩
  · rw [loopBody, if_pos htick2, if_pos (by omega), List.countP_append,
      insertKeys_no_unlink]
    rfl
  · intro ht3 k hmem
    rcases h : ht_lookup ht3 k with _ | v <;> rw [delNode, h] at hmem ⊢ <;> simp at hmem ⊢
  · intro ht3 k k2
    rcases h : ht_lookup ht3 k with _ | v <;> rw [delNode, h] <;> simp

/-- Witness for C7 (amended): removing keys 0 and 1 from a table holding
exactly those keys produces the full unlink-and-defer trace for both. -/
theorem c7_witness :
    (deleteKeys [((0 : Int), (0 : Int)), (1, 0)] (keyRange 2)).2 = delEvs (keyRange 2) :=
  (c7_amended_mutator_cycle envA 2 1 stW stW2 [(0, 0), (1, 0)] 0 (fun _ => rfl)
    (by unfold uniqKeys; decide) (by decide) rfl (by decide) rfl).2.2.2.1

/-- Counterexample for C7 as stated: in this completed 5-second,
1-object run every malloc succeeds, yet the trace holds 5 insert events
against only 4 unlink events, and the final hash table still holds the
node (0, 0): the cycle in which the stop condition fired never removed
the keys it had just inserted. -/
theorem c7_counterexample :
    (cMain [0, 1] 5 1 envA 60).map
        (fun r => (r.2.1.countP isInsertEv, r.2.1.countP isUnlinkEv, r.2.2))
      = some (5, 4, [(0, 0)]) := by
  decide

/-- C8 (amended): exit status 1 is produced by configuration validation,
by cds_lfht_new failure and by pthread_attr_init failure; every
completed run exits 0, and this holds for every malloc oracle, because
main ignores the NULL return of add_node: a failed node allocation does
not change the exit status and the run silently continues. -/
theorem c8_amended_exit_codes (coreList : List Int) (seconds objects : Int) (env : MainEnv)
    (fuel : Nat) (hc : 2 ≤ coreList.length) (hs : 5 ≤ seconds) (ho : 1 ≤ objects) :
    (env.htNewOk = false →
       cMain coreList seconds objects env fuel
         = some (1, [Event.printMsg "Error allocating hash table"], [])) ∧
    (env.htNewOk = true → env.attrInitOk = false →
       cMain coreList seconds objects env fuel
         = some (1, [Event.printMsg "pthread_attr_init"], [])) ∧
    (∀ r, cMain coreList seconds objects env fuel = some r →
       env.htNewOk = true → env.attrInitOk = true → r.1 = 0) := by
  refine ⟨?_, ?_, ?_⟩
  · intro h
    rw [cMain, if_neg (by omega), if_neg (by omega), if_neg (by omega), if_pos h]
  · intro h1 h2
    rw [cMain, if_neg (by omega), if_neg (by omega), if_neg (by omega),
      if_neg (by simp [h1]), if_pos h2]
  · intro r hr h1 h2
    obtain ⟨w, lp, _, _, hre⟩ :=
      cMain_run_shape coreList seconds objects env fuel hc hs ho h1 h2 r hr
    rw [hre]

/-- Witness for C8 (amended): cds_lfht_new failure exits with status 1
and the hash-table error message. -/
theorem c8_witness :
    cMain [0, 1] 5 1 envHtFail 10
      = some (1, [Event.printMsg "Error allocating hash table"], []) :=
  (c8_amended_exit_codes [0, 1] 5 1 envHtFail 10 (by decide) (by decide) (by decide)).1 rfl

/-- Counterexample for C8 as stated: a run in which every malloc fails —
so not one node is ever inserted — still completes and exits with status
0, not 1: allocation failure inside add_node is silently ignored by
main. -/
theorem c8_counterexample :
    (cMain [0, 1] 5 1 envC 60).map (fun r => (r.1, r.2.1.countP isInsertEv))
      = some (0, 0) := by
  decide

end UrcuHt
